import Mathlib

/-!
Verification of the FAT12 analysis/extraction tool (src/tools/fat/fat.c).

The definitions below are a shallow embedding of the C source.  Bytes are
modelled as `Nat` values (< 256 when they come from a real image), byte
buffers as `List Nat`, and the `FILE*`-backed disk image as the list of all
its bytes.  Machine arithmetic is `Nat` arithmetic; the two places where a
wrap of unsigned 32-bit arithmetic is actually reachable in the C code (the
byte offset passed to `fseek`, and the LBA computed from a cluster index
that may be below 2) carry an explicit `% 2^32`.  Out-of-bounds reads from
the in-memory FAT buffer (undefined behaviour in C) are modelled as reading
the byte 0 (`List.getD`).
-/

namespace Fat12

/-- 16-bit little-endian load from a byte buffer at byte offset `off`
(x86 `*(uint16_t*)` access, as used in `readFile` and for the packed
`uint16_t` boot-sector / directory-entry fields read by `fread`). -/
def le16 (bytes : List Nat) (off : Nat) : Nat :=
  bytes.getD off 0 + 256 * bytes.getD (off + 1) 0

/-- 32-bit little-endian load from a byte buffer at byte offset `off`
(packed `uint32_t` fields such as `DirectoryEntry.Size`). -/
def le32 (bytes : List Nat) (off : Nat) : Nat :=
  bytes.getD off 0 + 256 * bytes.getD (off + 1) 0 +
    65536 * bytes.getD (off + 2) 0 + 16777216 * bytes.getD (off + 3) 0

/-- The fields of the packed `BootSector` struct (fat.c lines 58-81) that the
tool reads.  The remaining fields (OEM id, geometry, volume label, ...) are
only printed and never influence any computation, so they are omitted. -/
structure BootSector where
  BytesPerSector : Nat
  SectorsPerCluster : Nat
  ReservedSectors : Nat
  FatCount : Nat
  DirEntryCount : Nat
  TotalSector : Nat
  SectorsPerFat : Nat
deriving DecidableEq, Repr

/-- The fields of the packed `DirectoryEntry` struct (fat.c lines 105-119)
that the tool reads: the 11-byte name, the attribute byte, the low first
cluster word and the byte size.  Timestamps and the (FAT32-only) high
cluster word are never read. -/
structure DirectoryEntry where
  Name : List Nat
  Attributes : Nat
  FirstClusterLow : Nat
  Size : Nat
deriving DecidableEq, Repr

/-- `readSectors` (fat.c lines 160-167): seek to byte offset
`lba * BytesPerSector` (computed in `uint32_t`, hence `% 2^32`) and `fread`
`count` items of size `BytesPerSector`.  The C call succeeds iff `fread`
returns `count`: for `count = 0` it trivially succeeds reading nothing; for
a zero item size `fread` returns 0, which fails whenever `count > 0`;
otherwise it succeeds iff all `count * BytesPerSector` bytes exist in the
image.  On success the result is exactly those bytes. -/
def readSectors (image : List Nat) (bps lba count : Nat) : Option (List Nat) :=
  if count = 0 then some []
  else if bps = 0 then none
  else
    let off := lba * bps % 4294967296
    if off + count * bps ≤ image.length then
      some ((image.drop off).take (count * bps))
    else none

/-- The FAT12 next-cluster lookup inlined in `readFile` (fat.c lines
300-308): `fatIndex = currentCluster * 3 / 2`, a 16-bit little-endian load
of `g_Fat` at that byte offset, then `& 0x0FFF` for an even cluster and
`>> 4` for an odd one. -/
def nextCluster (fat : List Nat) (currentCluster : Nat) : Nat :=
  let fatIndex := currentCluster * 3 / 2
  let fatValue := fat.getD fatIndex 0 + 256 * fat.getD (fatIndex + 1) 0
  if currentCluster % 2 = 0 then fatValue &&& 0x0FFF else fatValue >>> 4

/-- The cluster-to-LBA computation of `readFile` (fat.c line 282):
`g_RootDirectoryEnd + (currentCluster - 2) * SectorsPerCluster`.
`currentCluster - 2` is evaluated in (signed) `int` arithmetic, so for
`currentCluster < 2` the product is negative and the final addition to the
`uint32_t` wraps modulo `2^32`. -/
def clusterToLBA (rootDirEnd spc cluster : Nat) : Nat :=
  (((rootDirEnd : Int) + ((cluster : Int) - 2) * (spc : Int)) % 4294967296).toNat

/-- Writing `data` into a byte buffer starting at byte offset `off`
(the effect of `readSectors(disk, lba, count, outputBuffer + bytesRead)` on
the caller's buffer).  A write past the end of the allocation extends the
list; theorems about buffer sufficiency inspect the write log instead. -/
def writeBytes (buffer : List Nat) (off : Nat) (data : List Nat) : List Nat :=
  buffer.take off ++ data ++ buffer.drop (off + data.length)

/-- The `while` loop of `readFile` (fat.c lines 278-317).  The loop is
modelled with explicit fuel: `none` means the fuel ran out (the C loop is
still running).  The result carries the C return value, the final
`bytesRead`, the output buffer contents, and a ghost log of the buffer
writes `(offset, byteCount)` performed by the cluster reads.  Note that the
cluster read always stores a full cluster (`SectorsPerCluster` sectors) at
offset `bytesRead`; only the `bytesRead` counter advances by the clamped
`bytesToRead`. -/
def readFileLoop (image fat : List Nat) (bps spc rootDirEnd sizeFile : Nat) :
    Nat → Nat → Nat → List Nat → List (Nat × Nat) →
    Option (Bool × Nat × List Nat × List (Nat × Nat))
  | 0, _, _, _, _ => none
  | fuel + 1, currentCluster, bytesRead, buffer, writes =>
    if currentCluster < 0xFF8 ∧ bytesRead < sizeFile then
      let lba := clusterToLBA rootDirEnd spc currentCluster
      let bytesThisCluster := spc * bps
      let bytesRemaining := sizeFile - bytesRead
      let bytesToRead :=
        if bytesThisCluster < bytesRemaining then bytesThisCluster else bytesRemaining
      match readSectors image bps lba spc with
      | none => some (false, bytesRead, buffer, writes)
      | some data =>
        let buffer2 := writeBytes buffer bytesRead data
        let writes2 := writes ++ [(bytesRead, data.length)]
        let bytesRead2 := bytesRead + bytesToRead
        let next := nextCluster fat currentCluster
        if next = 0xFF7 then some (false, bytesRead2, buffer2, writes2)
        else readFileLoop image fat bps spc rootDirEnd sizeFile fuel next bytesRead2 buffer2 writes2
    else some (true, bytesRead, buffer, writes)

/-- `readFile` (fat.c lines 270-321): an empty file returns success without
touching the disk; otherwise the cluster-chain loop runs starting from
`FirstClusterLow` with `bytesRead = 0`. -/
def readFile (image fat : List Nat) (bps spc rootDirEnd : Nat)
    (entry : DirectoryEntry) (buffer : List Nat) (fuel : Nat) :
    Option (Bool × Nat × List Nat × List (Nat × Nat)) :=
  if entry.Size = 0 then some (true, 0, buffer, [])
  else readFileLoop image fat bps spc rootDirEnd entry.Size fuel
    entry.FirstClusterLow 0 buffer []

/-- The root-directory sector count computed in `readRootDirectory`
(fat.c lines 210-217): `size = sizeof(DirectoryEntry) * DirEntryCount`
(with `sizeof(DirectoryEntry) = 32`), divided by `BytesPerSector` and
rounded up when there is a remainder.  (For `BytesPerSector = 0` the C
division is undefined behaviour; `Nat` division then yields 0.) -/
def rootDirectorySectors (b : BootSector) : Nat :=
  let size := 32 * b.DirEntryCount
  let sectors := size / b.BytesPerSector
  if size % b.BytesPerSector > 0 then sectors + 1 else sectors

/-- The root-directory start LBA computed in `readRootDirectory`
(fat.c line 208): `ReservedSectors + SectorsPerFat * FatCount`. -/
def rootDirectoryStartLBA (b : BootSector) : Nat :=
  b.ReservedSectors + b.SectorsPerFat * b.FatCount

/-- `g_RootDirectoryEnd` (fat.c line 220): the LBA of the first sector after
the root directory, i.e. the start of the data region. -/
def rootDirectoryEnd (b : BootSector) : Nat :=
  rootDirectoryStartLBA b + rootDirectorySectors b

/-- Decoding the packed `BootSector` struct from the first bytes of the
image, exactly as `fread` lays the bytes into the packed struct on a
little-endian machine.  Byte offsets: BytesPerSector 11, SectorsPerCluster
13, ReservedSectors 14, FatCount 16, DirEntryCount 17, TotalSector 19,
SectorsPerFat 22. -/
def decodeBootSector (image : List Nat) : BootSector :=
  { BytesPerSector := le16 image 11
    SectorsPerCluster := image.getD 13 0
    ReservedSectors := le16 image 14
    FatCount := image.getD 16 0
    DirEntryCount := le16 image 17
    TotalSector := le16 image 19
    SectorsPerFat := le16 image 22 }

/-- `readBootSector` (fat.c lines 140-142): `fread` of one
`sizeof(BootSector) = 62` byte item; succeeds iff the image has at least 62
bytes. -/
def readBootSector (image : List Nat) : Option BootSector :=
  if 62 ≤ image.length then some (decodeBootSector image) else none

/-- Decoding the `i`-th packed `DirectoryEntry` (32 bytes) from the raw
root-directory bytes, following the program's struct layout (fat.c lines
105-119): name bytes 0-10, attribute byte 11, then `_reserved`,
`CreatedTimeTenths`, `CreatedTime`, `CreatedDate`, `AccessDate`,
`FirstClusterHigh`, so `FirstClusterLow` is the little-endian word at
offset 22 (the struct's nonstandard field order puts it there, not at the
on-disk-standard 26, which in this struct is `ModifiedDate`), and `Size`
is the little-endian doubleword at offset 28. -/
def decodeDirectoryEntry (bytes : List Nat) (i : Nat) : DirectoryEntry :=
  { Name := (bytes.drop (32 * i)).take 11
    Attributes := bytes.getD (32 * i + 11) 0
    FirstClusterLow := le16 bytes (32 * i + 22)
    Size := le32 bytes (32 * i + 28) }

/-- The first `count` directory entries of the loaded root-directory
buffer, i.e. the `g_RootDirectory[i]` values for `i < DirEntryCount`. -/
def rootEntries (bytes : List Nat) (count : Nat) : List DirectoryEntry :=
  (List.range count).map (decodeDirectoryEntry bytes)

/-- `findFile` (fat.c lines 241-251): scan the root-directory entries in
order and return the first whose 11 name bytes are `memcmp`-equal to the
searched name (`name` models the 11 bytes at the argument pointer).  There
is no other condition: the scan looks only at the name bytes. -/
def findFile (entries : List DirectoryEntry) (name : List Nat) : Option DirectoryEntry :=
  entries.find? (fun e => decide (e.Name = name))

/-- The pipeline of `main` (fat.c lines 353-496) from a successfully opened
image, with its distinct exit codes: −2 boot-sector read failure, −3 FAT
read failure, −4 root-directory read failure, −5 file not found, −6 not a
regular file / bad first cluster / file read failure, 0 success.  The
second component is the extracted byte stream main prints on success
(`buffer[0 .. Size)`), `none` on every failure path — the output buffer is
freed without being shown.  `alloc n` models `malloc(n)` (n bytes of
arbitrary heap garbage), and `fuel` bounds the `readFile` loop; a `none`
result means the loop was still running after `fuel` iterations. -/
def mainRun (image name : List Nat) (alloc : Nat → List Nat) (fuel : Nat) :
    Option (Int × Option (List Nat)) :=
  match readBootSector image with
  | none => some (-2, none)
  | some boot =>
    match readSectors image boot.BytesPerSector boot.ReservedSectors boot.SectorsPerFat with
    | none => some (-3, none)
    | some fat =>
      match readSectors image boot.BytesPerSector (rootDirectoryStartLBA boot)
          (rootDirectorySectors boot) with
      | none => some (-4, none)
      | some rootBytes =>
        match findFile (rootEntries rootBytes boot.DirEntryCount) name with
        | none => some (-5, none)
        | some entry =>
          if entry.Attributes &&& 0x10 ≠ 0 then some (-6, none)
          else if entry.Attributes &&& 0x08 ≠ 0 then some (-6, none)
          else if entry.Size = 0 then some (0, some [])
          else if entry.FirstClusterLow < 2 then some (-6, none)
          else
            match readFile image fat boot.BytesPerSector boot.SectorsPerCluster
                (rootDirectoryEnd boot) entry
                (alloc (entry.Size + boot.BytesPerSector)) fuel with
            | none => none
            | some (ok, _, buffer, _) =>
              if ok then some (0, some (buffer.take entry.Size)) else some (-6, none)

/-- The cluster visited at step `k` of the FAT chain starting at
`startCluster`: `chainAt fat s 0 = s` and each successor is obtained via
the FAT lookup. -/
def chainAt (fat : List Nat) (startCluster k : Nat) : Nat :=
  (nextCluster fat)^[k] startCluster

/-- Number of cluster reads needed for `sizeFile` bytes at `cs` bytes per
cluster: `⌈sizeFile / cs⌉`. -/
def clusterCount (cs sizeFile : Nat) : Nat :=
  (sizeFile + cs - 1) / cs

/-- The bytes a successful cluster read delivers for cluster `c`
(the full cluster, `SectorsPerCluster` sectors). -/
def clusterData (image : List Nat) (bps spc rootDirEnd c : Nat) : List Nat :=
  (readSectors image bps (clusterToLBA rootDirEnd spc c) spc).getD []

/-- The specification-level byte stream of a cluster chain: for each
visited cluster, the bytes contributed are clamped to
`min(clusterSizeInBytes, remaining)` where `remaining` is the declared
total minus the bytes already produced; `n` counts the clusters still to
visit. -/
def chainBytesAux (image fat : List Nat) (bps spc rootDirEnd : Nat) :
    Nat → Nat → Nat → List Nat
  | _, _, 0 => []
  | cluster, remaining, n + 1 =>
    (clusterData image bps spc rootDirEnd cluster).take (min (spc * bps) remaining) ++
      chainBytesAux image fat bps spc rootDirEnd (nextCluster fat cluster)
        (remaining - min (spc * bps) remaining) n

/-- The full clamped byte stream of the chain starting at `startCluster`
for a file of `sizeFile` bytes. -/
def chainBytes (image fat : List Nat) (bps spc rootDirEnd startCluster sizeFile : Nat) :
    List Nat :=
  chainBytesAux image fat bps spc rootDirEnd startCluster sizeFile
    (clusterCount (spc * bps) sizeFile)

/-- The concatenation of the full (unclamped) cluster contents for `d`
consecutive chain steps starting at step `k`. -/
def fullData (image fat : List Nat) (bps spc rootDirEnd startCluster : Nat) :
    Nat → Nat → List Nat
  | _, 0 => []
  | k, d + 1 =>
    clusterData image bps spc rootDirEnd (chainAt fat startCluster k) ++
      fullData image fat bps spc rootDirEnd startCluster (k + 1) d

/-- The write log produced by `d` consecutive cluster reads starting at
chain step `k`: each read stores a full cluster at offset `k * cs`. -/
def fullWrites (cs : Nat) : Nat → Nat → List (Nat × Nat)
  | _, 0 => []
  | k, d + 1 => (k * cs, cs) :: fullWrites cs (k + 1) d

/-- A concrete 101-byte image: 1 byte per sector, 1 sector per cluster,
62 reserved sectors, 1 FAT of 6 sectors (bytes 62-67), 1 root-directory
entry (bytes 68-99, file `BAD` of size 5 starting at cluster 2), data
region from byte 100.  Its FAT maps cluster 2 to the bad-cluster value
0xFF7. -/
def imgBadCluster : List Nat :=
  List.replicate 11 0 ++ [1, 0] ++ [1] ++ [62, 0] ++ [1] ++ [1, 0] ++ [0, 0] ++ [0] ++ [6, 0] ++
    List.replicate 38 0 ++
    [0, 0, 0, 0xF7, 0x0F, 0] ++
    ([66, 65, 68, 32, 32, 32, 32, 32, 32, 32, 32] ++ [0] ++ List.replicate 10 0 ++
      [2, 0] ++ List.replicate 4 0 ++ [5, 0, 0, 0]) ++
    [65]

/-- Like `imgBadCluster`, but the FAT maps cluster 2 straight to the
end-of-chain value 0xFF8 while the directory entry declares a size of 2
bytes: the chain ends after delivering only 1 byte (byte 100, the letter
`H`). -/
def imgTruncated : List Nat :=
  List.replicate 11 0 ++ [1, 0] ++ [1] ++ [62, 0] ++ [1] ++ [1, 0] ++ [0, 0] ++ [0] ++ [6, 0] ++
    List.replicate 38 0 ++
    [0, 0, 0, 0xF8, 0x0F, 0] ++
    ([66, 65, 68, 32, 32, 32, 32, 32, 32, 32, 32] ++ [0] ++ List.replicate 10 0 ++
      [2, 0] ++ List.replicate 4 0 ++ [2, 0, 0, 0]) ++
    [72]

/-- A 62-byte image whose boot sector declares 0 bytes per sector (and 1
sector per FAT): the degenerate geometry the specification says must be
rejected as `InvalidGeometry`. -/
def imgZeroBps : List Nat :=
  List.replicate 11 0 ++ [0, 0] ++ [1] ++ [1, 0] ++ [1] ++ [1, 0] ++ [0, 0] ++ [0] ++ [1, 0] ++
    List.replicate 38 0

/-- A 62-byte image with perfectly ordinary floppy geometry (512 bytes per
sector, 9 sectors per FAT) that is simply too short to contain its FAT: an
ordinary I/O short-read failure. -/
def imgShortFat : List Nat :=
  List.replicate 11 0 ++ [0, 2] ++ [1] ++ [1, 0] ++ [2] ++ [224, 0] ++ [0, 0] ++ [0] ++ [9, 0] ++
    List.replicate 38 0

/-- Claim C1: for every FAT buffer and cluster index, the next-cluster
lookup computes byte offset `current * 3 / 2`, reads the 16-bit
little-endian word there, masks to the low 12 bits for an even cluster and
shifts right 4 bits for an odd one; on the buffer `[0x34, 0x12, 0xAB]` the
entry for cluster 0 decodes to 0x234 and for cluster 1 to 0xAB1. -/
theorem claim_C1_fat12_decode :
    (∀ fat current, nextCluster fat current =
      if current % 2 = 0 then le16 fat (current * 3 / 2) % 4096
      else le16 fat (current * 3 / 2) / 16) ∧
    nextCluster [0x34, 0x12, 0xAB] 0 = 0x234 ∧
    nextCluster [0x34, 0x12, 0xAB] 1 = 0xAB1 := by
  refine ⟨fun fat current => ?_, by decide, by decide⟩
  have h1 : ∀ n : Nat, n &&& 0x0FFF = n % 4096 := fun n => by
    have h := Nat.and_pow_two_sub_one_eq_mod n 12
    norm_num at h
    exact h
  have h2 : ∀ n : Nat, n >>> 4 = n / 16 := fun n => by
    have h := Nat.shiftRight_eq_div_pow n 4
    norm_num at h
    exact h
  simp only [nextCluster, le16, h1, h2]

/-- Claim C6: for every boot sector with `BytesPerSector > 0`, the computed
root-directory sector count satisfies
`rootDirectorySectors * BytesPerSector ≥ DirEntryCount * 32`, with strict
inequality exactly when `DirEntryCount * 32` is not a multiple of
`BytesPerSector` (ceiling division, never rounding down). -/
theorem claim_C6_root_sectors_ceiling (b : BootSector) (h : 0 < b.BytesPerSector) :
    32 * b.DirEntryCount ≤ rootDirectorySectors b * b.BytesPerSector ∧
    (32 * b.DirEntryCount < rootDirectorySectors b * b.BytesPerSector ↔
      ¬ b.BytesPerSector ∣ 32 * b.DirEntryCount) := by
  have key := Nat.div_add_mod (32 * b.DirEntryCount) b.BytesPerSector
  have hlt : 32 * b.DirEntryCount % b.BytesPerSector < b.BytesPerSector :=
    Nat.mod_lt _ h
  have hdvd : b.BytesPerSector ∣ 32 * b.DirEntryCount ↔
      32 * b.DirEntryCount % b.BytesPerSector = 0 :=
    Nat.dvd_iff_mod_eq_zero
  simp only [rootDirectorySectors]
  split
  · rename_i hpos
    have hexp : (32 * b.DirEntryCount / b.BytesPerSector + 1) * b.BytesPerSector =
        b.BytesPerSector * (32 * b.DirEntryCount / b.BytesPerSector) + b.BytesPerSector := by
      ring
    rw [hexp, hdvd]
    generalize b.BytesPerSector * (32 * b.DirEntryCount / b.BytesPerSector) = t at key
    omega
  · rename_i hz
    have hexp : 32 * b.DirEntryCount / b.BytesPerSector * b.BytesPerSector =
        b.BytesPerSector * (32 * b.DirEntryCount / b.BytesPerSector) := by
      ring
    rw [hexp, hdvd]
    generalize b.BytesPerSector * (32 * b.DirEntryCount / b.BytesPerSector) = t at key
    omega

/-- Witness for C6 at a concrete boot sector (224 root entries, 512 bytes
per sector: 7168 bytes = exactly 14 sectors, no strict inequality). -/
theorem claim_C6_witness :
    32 * (224 : Nat) ≤ rootDirectorySectors ⟨512, 1, 1, 2, 224, 2880, 9⟩ * 512 ∧
    (32 * (224 : Nat) < rootDirectorySectors ⟨512, 1, 1, 2, 224, 2880, 9⟩ * 512 ↔
      ¬ (512 : Nat) ∣ 32 * 224) :=
  claim_C6_root_sectors_ceiling ⟨512, 1, 1, 2, 224, 2880, 9⟩ (by decide)

/-- For a cluster index ≥ 2 and no 32-bit wrap, the LBA computation is the
plain affine map of the specification. -/
theorem clusterToLBA_eq (rde spc cluster : Nat) (h2 : 2 ≤ cluster)
    (hb : rde + (cluster - 2) * spc < 4294967296) :
    clusterToLBA rde spc cluster = rde + (cluster - 2) * spc := by
  unfold clusterToLBA
  have hcast : ((rde : Int) + ((cluster : Int) - 2) * (spc : Int)) =
      ((rde + (cluster - 2) * spc : Nat) : Int) := by
    have h3 : ((cluster - 2 : Nat) : Int) = (cluster : Int) - 2 := by omega
    push_cast
    rw [h3]
  rw [hcast, Int.emod_eq_of_lt (by positivity) (by exact_mod_cast hb)]
  exact Int.toNat_natCast _

/-- Claim C7: for every boot sector (fields in their C type ranges,
nonzero sector size) and every cluster index `C` in `[2, 0xFEF]`, the
cluster-to-LBA map of `readFile` satisfies
`clusterToLBA (C+1) - clusterToLBA C = SectorsPerCluster`: contiguous
cluster numbers map to contiguous sector runs. -/
theorem claim_C7_cluster_lba_contiguous (b : BootSector) (C : Nat)
    (_hbps : 0 < b.BytesPerSector)
    (hb1 : b.ReservedSectors ≤ 65535) (hb2 : b.SectorsPerFat ≤ 65535)
    (hb3 : b.FatCount ≤ 255) (hb4 : b.DirEntryCount ≤ 65535)
    (hb5 : b.SectorsPerCluster ≤ 255)
    (hC1 : 2 ≤ C) (hC2 : C ≤ 0xFEF) :
    clusterToLBA (rootDirectoryEnd b) b.SectorsPerCluster (C + 1) -
      clusterToLBA (rootDirectoryEnd b) b.SectorsPerCluster C = b.SectorsPerCluster := by
  have hsec : rootDirectorySectors b ≤ 2097121 := by
    have h1 : 32 * b.DirEntryCount / b.BytesPerSector ≤ 32 * b.DirEntryCount :=
      Nat.div_le_self _ _
    simp only [rootDirectorySectors]
    split
    · generalize 32 * b.DirEntryCount / b.BytesPerSector = q at h1 ⊢
      omega
    · generalize 32 * b.DirEntryCount / b.BytesPerSector = q at h1 ⊢
      omega
  have hfats : b.SectorsPerFat * b.FatCount ≤ 16711425 := by
    calc b.SectorsPerFat * b.FatCount ≤ 65535 * 255 := Nat.mul_le_mul hb2 hb3
    _ = 16711425 := by norm_num
  have hrde : rootDirectoryEnd b ≤ 18874081 := by
    simp only [rootDirectoryEnd, rootDirectoryStartLBA]
    omega
  have hm1 : (C - 2) * b.SectorsPerCluster ≤ 4077 * 255 :=
    Nat.mul_le_mul (by omega) hb5
  have hm2 : (C + 1 - 2) * b.SectorsPerCluster ≤ 4078 * 255 :=
    Nat.mul_le_mul (by omega) hb5
  have hA := clusterToLBA_eq (rootDirectoryEnd b) b.SectorsPerCluster C hC1 (by omega)
  have hB := clusterToLBA_eq (rootDirectoryEnd b) b.SectorsPerCluster (C + 1) (by omega)
    (by omega)
  rw [hA, hB]
  have hstep : (C + 1 - 2) * b.SectorsPerCluster =
      (C - 2) * b.SectorsPerCluster + b.SectorsPerCluster := by
    have h4 : C + 1 - 2 = (C - 2) + 1 := by omega
    rw [h4, Nat.add_mul, Nat.one_mul]
  rw [hstep]
  omega

/-- Witness for C7 at a concrete 1.44MB-floppy boot sector and cluster
index 2. -/
theorem claim_C7_witness :
    clusterToLBA (rootDirectoryEnd ⟨512, 1, 1, 2, 224, 2880, 9⟩) 1 (2 + 1) -
      clusterToLBA (rootDirectoryEnd ⟨512, 1, 1, 2, 224, 2880, 9⟩) 1 2 = 1 :=
  claim_C7_cluster_lba_contiguous ⟨512, 1, 1, 2, 224, 2880, 9⟩ 2 (by decide) (by decide)
    (by decide) (by decide) (by decide) (by decide) (by decide) (by decide)

/-- Counterexample to claim C5: `findFile` performs a raw 11-byte
comparison with no check of the first name byte, so a deleted entry (first
name byte 0xE5) whose bytes equal the searched name IS returned — the
claim says such an entry is never matched. -/
theorem claim_C5_counterexample :
    findFile [⟨[0xE5, 68, 69, 76, 69, 84, 69, 68, 32, 32, 32], 0, 2, 4⟩]
        [0xE5, 68, 69, 76, 69, 84, 69, 68, 32, 32, 32]
      = some ⟨[0xE5, 68, 69, 76, 69, 84, 69, 68, 32, 32, 32], 0, 2, 4⟩ ∧
    ([0xE5, 68, 69, 76, 69, 84, 69, 68, 32, 32, 32] : List Nat).getD 0 0 = 0xE5 := by
  decide

/-- Claim C5 as amended by the counterexample: `findFile` returns the first
entry whose 11 name bytes equal the searched name with no skipping of
deleted-marker (0xE5) or zero-terminator (0x00) entries — such an entry is
matched whenever its bytes compare equal.  (Only the directory listing in
`main` skips 0xE5/0x00 entries, for display.) -/
theorem claim_C5_amended (e : DirectoryEntry) (rest : List DirectoryEntry)
    (name : List Nat) (h : e.Name = name) :
    findFile (e :: rest) name = some e := by
  simp [findFile, List.find?_cons_of_pos, h]

/-- Witness for the amended C5 at a concrete deleted entry. -/
theorem claim_C5_witness :
    findFile [⟨[0xE5, 1, 2, 3, 4, 5, 6, 7, 8, 9, 10], 0, 3, 7⟩]
        [0xE5, 1, 2, 3, 4, 5, 6, 7, 8, 9, 10]
      = some ⟨[0xE5, 1, 2, 3, 4, 5, 6, 7, 8, 9, 10], 0, 3, 7⟩ :=
  claim_C5_amended ⟨[0xE5, 1, 2, 3, 4, 5, 6, 7, 8, 9, 10], 0, 3, 7⟩ [] _ rfl

/-- Counterexample to claim C4: on `imgTruncated` the directory entry
declares 2 bytes but the FAT chain hits end-of-chain after 1 byte.  The
loop exits with the plain success value `true` (first conjunct), and the
whole pipeline exits with code 0 and prints 2 bytes, the second being
heap garbage (here 7) — no `TruncatedFile` condition of any kind is
surfaced to the caller, contrary to the claim. -/
theorem claim_C4_counterexample :
    readFileLoop [72] [0, 0, 0, 0xF8, 0x0F] 1 1 0 2 2 2 0 [7, 7, 7] []
      = some (true, 1, [72, 7, 7], [(0, 1)]) ∧
    mainRun imgTruncated [66, 65, 68, 32, 32, 32, 32, 32, 32, 32, 32]
        (fun n => List.replicate n 7) 2
      = some (0, some [72, 7]) := by
  constructor
  · decide
  · decide

/-- Claim C4 as amended by the counterexample: when the chain reaches an
end-of-chain marker (≥ 0xFF8) the read terminates normally with the same
success value `true` regardless of how many bytes were produced; the size
mismatch is NOT surfaced — the result is indistinguishable from that of a
complete read. -/
theorem claim_C4_amended (image fat : List Nat)
    (bps spc rde sizeFile fuel cluster bytesRead : Nat)
    (buffer : List Nat) (writes : List (Nat × Nat)) (h : 0xFF8 ≤ cluster) :
    readFileLoop image fat bps spc rde sizeFile (fuel + 1) cluster bytesRead buffer writes
      = some (true, bytesRead, buffer, writes) := by
  simp only [readFileLoop]
  rw [if_neg (by omega : ¬(cluster < 0xFF8 ∧ bytesRead < sizeFile))]

/-- Witness for the amended C4: an end-of-chain cluster with
`bytesRead = 1 < sizeFile = 5` still yields the success value. -/
theorem claim_C4_witness :
    readFileLoop [] [] 1 1 0 5 1 0xFF8 1 [9] [(0, 1)]
      = some (true, 1, [9], [(0, 1)]) :=
  claim_C4_amended [] [] 1 1 0 5 0 0xFF8 1 [9] [(0, 1)] (by decide)

/-- Counterexample to claim C8: the code contains no `InvalidGeometry`
check at all.  On `imgZeroBps` (bytes-per-sector 0) the pipeline proceeds
to the FAT load, whose read fails, and exits with −3 — exactly the same
exit as `imgShortFat`, an ordinary short-read I/O failure on perfectly
valid geometry.  No geometry-specific failure happens before the
layout-dependent read is attempted. -/
theorem claim_C8_counterexample :
    mainRun imgZeroBps [] (fun n => List.replicate n 0) 0 = some (-3, none) ∧
    mainRun imgShortFat [] (fun n => List.replicate n 0) 0 = some (-3, none) := by
  constructor
  · decide
  · decide

/-- Claim C8 as amended by the counterexample: with `BytesPerSector = 0`
(and a nonzero FAT size) the tool performs no geometry validation; it
attempts the FAT load, whose zero-item-size read fails, and exits with the
generic FAT-read-failure code −3 — the same code as an ordinary I/O read
failure. -/
theorem claim_C8_amended (image name : List Nat) (alloc : Nat → List Nat) (fuel : Nat)
    (hlen : 62 ≤ image.length) (hbps : le16 image 11 = 0) (hspf : 1 ≤ le16 image 22) :
    mainRun image name alloc fuel = some (-3, none) := by
  have hrs : readSectors image (decodeBootSector image).BytesPerSector
      (decodeBootSector image).ReservedSectors (decodeBootSector image).SectorsPerFat
        = none := by
    have h1 : (decodeBootSector image).BytesPerSector = 0 := hbps
    have h2 : ¬ (decodeBootSector image).SectorsPerFat = 0 := by
      show ¬ le16 image 22 = 0
      omega
    unfold readSectors
    rw [if_neg h2, if_pos h1]
  unfold mainRun readBootSector
  rw [if_pos hlen]
  simp only [hrs]

/-- Witness for the amended C8 at the concrete zero-geometry image. -/
theorem claim_C8_witness :
    mainRun imgZeroBps [1] (fun n => List.replicate n 3) 5 = some (-3, none) :=
  claim_C8_amended imgZeroBps [1] (fun n => List.replicate n 3) 5
    (by decide) (by decide) (by decide)

/-- Claim C3: (1) if, in an iteration of the chain loop, the FAT lookup for
the current cluster yields the bad-cluster value 0xFF7, the loop returns
the failure value `false` immediately (even though this iteration's bytes
were produced); (2) whenever the `readFile` stage of `main` fails, `main`
exits with code −6 and the partial output buffer is discarded — no byte
sequence is returned to the caller. -/
theorem claim_C3_bad_cluster_fails :
    (∀ (image fat : List Nat) (bps spc rde sizeFile fuel cluster bytesRead : Nat)
        (buffer : List Nat) (writes : List (Nat × Nat)) (data : List Nat),
      cluster < 0xFF8 → bytesRead < sizeFile →
      readSectors image bps (clusterToLBA rde spc cluster) spc = some data →
      nextCluster fat cluster = 0xFF7 →
      readFileLoop image fat bps spc rde sizeFile (fuel + 1) cluster bytesRead buffer writes
        = some (false,
            bytesRead +
              (if spc * bps < sizeFile - bytesRead then spc * bps else sizeFile - bytesRead),
            writeBytes buffer bytesRead data, writes ++ [(bytesRead, data.length)])) ∧
    (∀ (image name : List Nat) (alloc : Nat → List Nat) (fuel : Nat) (boot : BootSector)
        (fat rootBytes : List Nat) (entry : DirectoryEntry),
      readBootSector image = some boot →
      readSectors image boot.BytesPerSector boot.ReservedSectors boot.SectorsPerFat = some fat →
      readSectors image boot.BytesPerSector (rootDirectoryStartLBA boot)
          (rootDirectorySectors boot) = some rootBytes →
      findFile (rootEntries rootBytes boot.DirEntryCount) name = some entry →
      entry.Attributes &&& 0x10 = 0 → entry.Attributes &&& 0x08 = 0 →
      entry.Size ≠ 0 → ¬ entry.FirstClusterLow < 2 →
      (∃ n buf w, readFile image fat boot.BytesPerSector boot.SectorsPerCluster
          (rootDirectoryEnd boot) entry (alloc (entry.Size + boot.BytesPerSector)) fuel
            = some (false, n, buf, w)) →
      mainRun image name alloc fuel = some (-6, none)) := by
  constructor
  · intro image fat bps spc rde sizeFile fuel cluster bytesRead buffer writes data
      h1 h2 h3 h4
    simp only [readFileLoop]
    rw [if_pos ⟨h1, h2⟩, h3, h4]
    simp
  · intro image name alloc fuel boot fat rootBytes entry hboot hfat hroot hfind
      hA1 hA2 hSz hCl hrf
    obtain ⟨n, buf, w, hrf⟩ := hrf
    unfold mainRun
    simp [hboot, hfat, hroot, hfind, hrf, hA1, hA2, hSz, hCl]

/-- Witness for C3: on `imgBadCluster` the FAT maps cluster 2 to 0xFF7, so
the loop fails after producing 1 of the declared 5 bytes, and the full
pipeline exits with code −6 and no output. -/
theorem claim_C3_witness :
    readFileLoop imgBadCluster [0, 0, 0, 0xF7, 0x0F, 0] 1 1 100 5 1 2 0
        (List.replicate 6 7) []
      = some (false, 0 + (if 1 * 1 < 5 - 0 then 1 * 1 else 5 - 0),
          writeBytes (List.replicate 6 7) 0 [65], [] ++ [(0, 1)]) ∧
    mainRun imgBadCluster [66, 65, 68, 32, 32, 32, 32, 32, 32, 32, 32]
        (fun n => List.replicate n 7) 1
      = some (-6, none) :=
  ⟨claim_C3_bad_cluster_fails.1 imgBadCluster [0, 0, 0, 0xF7, 0x0F, 0] 1 1 100 5 0 2 0
      (List.replicate 6 7) [] [65] (by decide) (by decide) (by decide) (by decide),
   claim_C3_bad_cluster_fails.2 imgBadCluster [66, 65, 68, 32, 32, 32, 32, 32, 32, 32, 32]
      (fun n => List.replicate n 7) 1 ⟨1, 1, 62, 1, 1, 0, 6⟩ [0, 0, 0, 0xF7, 0x0F, 0]
      [66, 65, 68, 32, 32, 32, 32, 32, 32, 32, 32, 0, 0, 0, 0, 0, 0, 0, 0, 0, 0, 0, 2, 0,
        0, 0, 0, 0, 5, 0, 0, 0]
      ⟨[66, 65, 68, 32, 32, 32, 32, 32, 32, 32, 32], 0, 2, 5⟩
      (by decide) (by decide) (by decide) (by decide) (by decide) (by decide) (by decide)
      (by decide) ⟨1, [65, 7, 7, 7, 7, 7], [(0, 1)], by decide⟩⟩

/-- Step equation of the chain loop: when the guard holds and the cluster
read succeeds, one iteration reduces to the bad-cluster test. -/
theorem readFileLoop_succ_some (image fat : List Nat)
    (bps spc rde sizeFile f cluster bytesRead : Nat)
    (buffer : List Nat) (writes : List (Nat × Nat)) (data : List Nat)
    (hg : cluster < 0xFF8 ∧ bytesRead < sizeFile)
    (hread : readSectors image bps (clusterToLBA rde spc cluster) spc = some data) :
    readFileLoop image fat bps spc rde sizeFile (f + 1) cluster bytesRead buffer writes =
      if nextCluster fat cluster = 0xFF7 then
        some (false,
          bytesRead +
            (if spc * bps < sizeFile - bytesRead then spc * bps else sizeFile - bytesRead),
          writeBytes buffer bytesRead data, writes ++ [(bytesRead, data.length)])
      else
        readFileLoop image fat bps spc rde sizeFile f (nextCluster fat cluster)
          (bytesRead +
            (if spc * bps < sizeFile - bytesRead then spc * bps else sizeFile - bytesRead))
          (writeBytes buffer bytesRead data) (writes ++ [(bytesRead, data.length)]) := by
  simp only [readFileLoop]
  rw [if_pos hg, hread]

/-- Step equation of the chain loop: when the guard holds and the cluster
read fails, the loop returns the failure value at once. -/
theorem readFileLoop_succ_none (image fat : List Nat)
    (bps spc rde sizeFile f cluster bytesRead : Nat)
    (buffer : List Nat) (writes : List (Nat × Nat))
    (hg : cluster < 0xFF8 ∧ bytesRead < sizeFile)
    (hread : readSectors image bps (clusterToLBA rde spc cluster) spc = none) :
    readFileLoop image fat bps spc rde sizeFile (f + 1) cluster bytesRead buffer writes =
      some (false, bytesRead, buffer, writes) := by
  simp only [readFileLoop]
  rw [if_pos hg, hread]

/-- Step equation of the chain loop: when the guard fails (end-of-chain or
all bytes read) the loop returns the success value. -/
theorem readFileLoop_succ_stop (image fat : List Nat)
    (bps spc rde sizeFile f cluster bytesRead : Nat)
    (buffer : List Nat) (writes : List (Nat × Nat))
    (hg : ¬(cluster < 0xFF8 ∧ bytesRead < sizeFile)) :
    readFileLoop image fat bps spc rde sizeFile (f + 1) cluster bytesRead buffer writes =
      some (true, bytesRead, buffer, writes) := by
  simp only [readFileLoop]
  rw [if_neg hg]

/-- A successful `readSectors` returns exactly `count * bps` bytes. -/
theorem readSectors_length (image : List Nat) (bps lba count : Nat) (data : List Nat)
    (h : readSectors image bps lba count = some data) : data.length = count * bps := by
  simp only [readSectors] at h
  split at h
  · rename_i hc
    cases h
    simp [hc]
  · split at h
    · cases h
    · split at h
      · rename_i hrange
        cases h
        simp only [List.length_take, List.length_drop]
        omega
      · cases h

/-- The number of cluster reads still needed strictly decreases across one
iteration of the chain loop (`a` bytes already read, `S` total). -/
theorem ceil_decreases (cs a S : Nat) (hcs : 0 < cs) (ha : a < S) :
    (S - (a + (if cs < S - a then cs else S - a)) + cs - 1) / cs + 1 ≤
      (S - a + cs - 1) / cs := by
  split
  · rename_i h
    have e1 : S - (a + cs) + cs - 1 = S - a - 1 := by omega
    have e2 : S - a + cs - 1 = (S - a - 1) + cs := by omega
    rw [e1, e2, Nat.add_div_right _ hcs]
  · rename_i h
    have e1 : S - (a + (S - a)) + cs - 1 = cs - 1 := by omega
    rw [e1]
    have e2 : (cs - 1) / cs = 0 := Nat.div_eq_of_lt (by omega)
    rw [e2]
    have h1 : 1 * cs ≤ S - a + cs - 1 := by omega
    have h2 := (Nat.le_div_iff_mul_le hcs).2 h1
    omega

/-- Every write logged by the chain loop is a full cluster stored at an
offset strictly below the declared file size (invariant preserved from any
write log that already satisfies it). -/
theorem readFileLoop_writes_bound (image fat : List Nat) (bps spc rde sizeFile : Nat) :
    ∀ (fuel cluster bytesRead : Nat) (buffer : List Nat) (writes : List (Nat × Nat))
      (r : Bool × Nat × List Nat × List (Nat × Nat)),
      (∀ p ∈ writes, p.1 < sizeFile ∧ p.2 = spc * bps) →
      readFileLoop image fat bps spc rde sizeFile fuel cluster bytesRead buffer writes
        = some r →
      ∀ p ∈ r.2.2.2, p.1 < sizeFile ∧ p.2 = spc * bps := by
  intro fuel
  induction fuel with
  | zero =>
    intro cluster bytesRead buffer writes r hw hr
    simp [readFileLoop] at hr
  | succ f ih =>
    intro cluster bytesRead buffer writes r hw hr
    by_cases hg : cluster < 0xFF8 ∧ bytesRead < sizeFile
    · cases hread : readSectors image bps (clusterToLBA rde spc cluster) spc with
      | none =>
        rw [readFileLoop_succ_none image fat bps spc rde sizeFile f cluster bytesRead
          buffer writes hg hread] at hr
        cases hr
        exact hw
      | some data =>
        have hdl : data.length = spc * bps :=
          readSectors_length image bps _ spc data hread
        have hw2 : ∀ p ∈ writes ++ [(bytesRead, data.length)],
            p.1 < sizeFile ∧ p.2 = spc * bps := by
          intro p hp
          rcases List.mem_append.1 hp with hp | hp
          · exact hw p hp
          · simp at hp
            rw [hp]
            exact ⟨hg.2, hdl⟩
        rw [readFileLoop_succ_some image fat bps spc rde sizeFile f cluster bytesRead
          buffer writes data hg hread] at hr
        by_cases h7 : nextCluster fat cluster = 0xFF7
        · rw [if_pos h7] at hr
          cases hr
          exact hw2
        · rw [if_neg h7] at hr
          exact ih _ _ _ _ r hw2 hr
    · rw [readFileLoop_succ_stop image fat bps spc rde sizeFile f cluster bytesRead
        buffer writes hg] at hr
      cases hr
      exact hw

/-- With a positive cluster size, the chain loop always terminates: fuel
`⌈remaining / clusterSize⌉ + 1` suffices, whatever the FAT contains (cyclic
chains included), and the number of cluster reads performed is bounded by
`⌈remaining / clusterSize⌉`. -/
theorem readFileLoop_terminates (image fat : List Nat) (bps spc rde sizeFile : Nat)
    (hcs : 0 < spc * bps) :
    ∀ (fuel bytesRead cluster : Nat) (buffer : List Nat) (writes : List (Nat × Nat)),
      (sizeFile - bytesRead + spc * bps - 1) / (spc * bps) + 1 ≤ fuel →
      ∃ r, readFileLoop image fat bps spc rde sizeFile fuel cluster bytesRead buffer writes
          = some r ∧
        r.2.2.2.length ≤
          writes.length + (sizeFile - bytesRead + spc * bps - 1) / (spc * bps) := by
  intro fuel
  induction fuel with
  | zero =>
    intro bytesRead cluster buffer writes hf
    exact absurd hf (Nat.not_succ_le_zero _)
  | succ f ih =>
    intro bytesRead cluster buffer writes hf
    by_cases hg : cluster < 0xFF8 ∧ bytesRead < sizeFile
    · cases hread : readSectors image bps (clusterToLBA rde spc cluster) spc with
      | none =>
        exact ⟨_, readFileLoop_succ_none image fat bps spc rde sizeFile f cluster bytesRead
          buffer writes hg hread, Nat.le_add_right _ _⟩
      | some data =>
        have hone : 1 ≤ (sizeFile - bytesRead + spc * bps - 1) / (spc * bps) :=
          (Nat.le_div_iff_mul_le hcs).2 (by omega)
        by_cases h7 : nextCluster fat cluster = 0xFF7
        · refine ⟨(false,
              bytesRead +
                (if spc * bps < sizeFile - bytesRead then spc * bps else sizeFile - bytesRead),
              writeBytes buffer bytesRead data, writes ++ [(bytesRead, data.length)]),
              ?_, ?_⟩
          · rw [readFileLoop_succ_some image fat bps spc rde sizeFile f cluster bytesRead
              buffer writes data hg hread, if_pos h7]
          · simp only [List.length_append, List.length_cons, List.length_nil]
            omega
        · have hcd := ceil_decreases (spc * bps) bytesRead sizeFile hcs hg.2
          obtain ⟨r, hr, hlen⟩ := ih
            (bytesRead +
              (if spc * bps < sizeFile - bytesRead then spc * bps else sizeFile - bytesRead))
            (nextCluster fat cluster) (writeBytes buffer bytesRead data)
            (writes ++ [(bytesRead, data.length)]) (by omega)
          refine ⟨r, ?_, ?_⟩
          · rw [readFileLoop_succ_some image fat bps spc rde sizeFile f cluster bytesRead
              buffer writes data hg hread, if_neg h7]
            exact hr
          · simp only [List.length_append, List.length_cons, List.length_nil] at hlen
            omega
    · exact ⟨_, readFileLoop_succ_stop image fat bps spc rde sizeFile f cluster bytesRead
        buffer writes hg, Nat.le_add_right _ _⟩

/-- Claim C9: for every FAT content (cyclic or self-referential chains
included) and every directory entry with `Size > 0`, provided the cluster
size `SectorsPerCluster * BytesPerSector` is at least 1, the chain loop
terminates after at most `⌈Size / clusterSize⌉` cluster reads (the write
log records exactly one entry per cluster read). -/
theorem claim_C9_termination (image fat : List Nat) (bps spc rde : Nat)
    (entry : DirectoryEntry) (buffer : List Nat)
    (hcs : 1 ≤ spc * bps) (hS : 0 < entry.Size) :
    ∃ r, readFile image fat bps spc rde entry buffer
        (clusterCount (spc * bps) entry.Size + 1) = some r ∧
      r.2.2.2.length ≤ clusterCount (spc * bps) entry.Size := by
  unfold readFile
  rw [if_neg (by omega)]
  obtain ⟨r, hr, hlen⟩ := readFileLoop_terminates image fat bps spc rde entry.Size hcs
    (clusterCount (spc * bps) entry.Size + 1) 0 entry.FirstClusterLow buffer []
    (by simp [clusterCount])
  refine ⟨r, hr, ?_⟩
  simpa [clusterCount] using hlen

/-- Witness for C9: a 2-byte file over two 1-byte clusters terminates
within the bound. -/
theorem claim_C9_witness :
    ∃ r, readFile [72, 105] [0, 0, 0, 3, 0x80, 0xFF] 1 1 0 ⟨[65], 0, 2, 2⟩ [9, 9, 9]
        (clusterCount (1 * 1) 2 + 1) = some r ∧
      r.2.2.2.length ≤ clusterCount (1 * 1) 2 :=
  claim_C9_termination [72, 105] [0, 0, 0, 3, 0x80, 0xFF] 1 1 0 ⟨[65], 0, 2, 2⟩ [9, 9, 9]
    (by decide) (by decide)

/-- Claim C10: (1) every buffer write performed by a chain read is a full
cluster of `SectorsPerCluster * BytesPerSector` bytes stored at offset
`bytesRead < Size`, so every written byte lies at an offset strictly below
`Size + SectorsPerCluster * BytesPerSector`; (2) with
`SectorsPerCluster = 1` every write therefore fits inside the
`Size + BytesPerSector` bytes allocated by `main`; (3) for every
`SectorsPerCluster ≥ 2` there is a run whose write extends past
`Size + BytesPerSector`, so the allocation is large enough exactly when
`SectorsPerCluster = 1`. -/
theorem claim_C10_buffer_bounds :
    (∀ (image fat : List Nat) (bps spc rde : Nat) (entry : DirectoryEntry)
        (buffer : List Nat) (fuel : Nat) (r : Bool × Nat × List Nat × List (Nat × Nat)),
      readFile image fat bps spc rde entry buffer fuel = some r →
      ∀ p ∈ r.2.2.2,
        p.1 < entry.Size ∧ p.2 = spc * bps ∧ p.1 + p.2 < entry.Size + spc * bps) ∧
    (∀ (image fat : List Nat) (bps rde : Nat) (entry : DirectoryEntry)
        (buffer : List Nat) (fuel : Nat) (r : Bool × Nat × List Nat × List (Nat × Nat)),
      readFile image fat bps 1 rde entry buffer fuel = some r →
      ∀ p ∈ r.2.2.2, p.1 + p.2 ≤ entry.Size + bps) ∧
    (∀ spc, 2 ≤ spc →
      ∃ (image fat : List Nat) (entry : DirectoryEntry) (buffer : List Nat)
        (r : Bool × Nat × List Nat × List (Nat × Nat)),
        readFile image fat 2 spc 0 entry buffer 2 = some r ∧
        ∃ p ∈ r.2.2.2, entry.Size + 2 < p.1 + p.2) := by
  have H1 : ∀ (image fat : List Nat) (bps spc rde : Nat) (entry : DirectoryEntry)
      (buffer : List Nat) (fuel : Nat) (r : Bool × Nat × List Nat × List (Nat × Nat)),
      readFile image fat bps spc rde entry buffer fuel = some r →
      ∀ p ∈ r.2.2.2,
        p.1 < entry.Size ∧ p.2 = spc * bps ∧ p.1 + p.2 < entry.Size + spc * bps := by
    intro image fat bps spc rde entry buffer fuel r h p hp
    unfold readFile at h
    split at h
    · cases h
      simp at hp
    · have hb := readFileLoop_writes_bound image fat bps spc rde entry.Size fuel
        entry.FirstClusterLow 0 buffer [] r (by simp) h
      obtain ⟨h1, h2⟩ := hb p hp
      exact ⟨h1, h2, by omega⟩
  refine ⟨H1, ?_, ?_⟩
  · intro image fat bps rde entry buffer fuel r h p hp
    obtain ⟨h1, h2, h3⟩ := H1 image fat bps 1 rde entry buffer fuel r h p hp
    omega
  · intro spc hspc
    have hlba : clusterToLBA 0 spc 2 = 0 := by
      unfold clusterToLBA
      norm_num
    have hread : readSectors (List.replicate (spc * 2) 0) 2 (clusterToLBA 0 spc 2) spc
        = some (List.replicate (spc * 2) 0) := by
      rw [hlba]
      simp only [readSectors]
      rw [if_neg (by omega : ¬ spc = 0), if_neg (by omega : ¬ (2 : Nat) = 0),
        if_pos (by simp)]
      simp
    have hloop : readFileLoop (List.replicate (spc * 2) 0) [0, 0, 0, 0xF8, 0x0F] 2 spc 0 1
        2 2 0 [] []
        = some (true, 1, writeBytes [] 0 (List.replicate (spc * 2) 0), [(0, spc * 2)]) := by
      rw [readFileLoop_succ_some (List.replicate (spc * 2) 0) [0, 0, 0, 0xF8, 0x0F] 2 spc 0
        1 1 2 0 [] [] (List.replicate (spc * 2) 0) (by decide) hread]
      rw [if_neg (by decide : ¬ nextCluster [0, 0, 0, 0xF8, 0x0F] 2 = 0xFF7)]
      rw [show nextCluster [0, 0, 0, 0xF8, 0x0F] 2 = 0xFF8 from by decide]
      rw [if_neg (by omega : ¬ spc * 2 < 1 - 0)]
      rw [readFileLoop_succ_stop (List.replicate (spc * 2) 0) [0, 0, 0, 0xF8, 0x0F] 2 spc 0
        1 0 0xFF8 (0 + (1 - 0)) (writeBytes [] 0 (List.replicate (spc * 2) 0))
        ([] ++ [(0, (List.replicate (spc * 2) 0).length)]) (by decide)]
      simp
    have hrun : readFile (List.replicate (spc * 2) 0) [0, 0, 0, 0xF8, 0x0F] 2 spc 0
        ⟨[], 0, 2, 1⟩ [] 2
        = some (true, 1, writeBytes [] 0 (List.replicate (spc * 2) 0), [(0, spc * 2)]) := by
      unfold readFile
      rw [if_neg (by decide)]
      exact hloop
    refine ⟨List.replicate (spc * 2) 0, [0, 0, 0, 0xF8, 0x0F], ⟨[], 0, 2, 1⟩, [],
      (true, 1, writeBytes [] 0 (List.replicate (spc * 2) 0), [(0, spc * 2)]), hrun,
      (0, spc * 2), by simp, ?_⟩
    show (1 : Nat) + 2 < 0 + spc * 2
    omega

/-- `chainAt` at step 0 is the start cluster. -/
theorem chainAt_zero (fat : List Nat) (s : Nat) : chainAt fat s 0 = s := rfl

/-- `chainAt` advances by one FAT lookup per step. -/
theorem chainAt_succ (fat : List Nat) (s k : Nat) :
    chainAt fat s (k + 1) = nextCluster fat (chainAt fat s k) :=
  Function.iterate_succ_apply' _ _ _

/-- `k` is a needed cluster index iff fewer than `S` bytes are produced by
the first `k` clusters. -/
theorem lt_clusterCount_iff (cs S k : Nat) (hcs : 0 < cs) :
    k < clusterCount cs S ↔ k * cs < S := by
  unfold clusterCount
  rw [Nat.lt_iff_add_one_le, Nat.le_div_iff_mul_le hcs]
  have h : (k + 1) * cs = k * cs + cs := by ring
  rw [h]
  generalize k * cs = t
  omega

/-- `clusterCount` clusters cover the whole file. -/
theorem le_clusterCount_mul (cs S : Nat) (hcs : 0 < cs) : S ≤ clusterCount cs S * cs := by
  by_contra h
  push_neg at h
  have h2 := (lt_clusterCount_iff cs S (clusterCount cs S) hcs).2 h
  omega

/-- The clamped chain stream of a zero-byte remainder is empty. -/
theorem chainBytesAux_zero (image fat : List Nat) (bps spc rde : Nat) :
    ∀ (n c : Nat), chainBytesAux image fat bps spc rde c 0 n = [] := by
  intro n
  induction n with
  | zero => intro c; rfl
  | succ m ih =>
    intro c
    simp [chainBytesAux, ih]

/-- Length of the unclamped concatenation of `d` successfully read
clusters. -/
theorem fullData_length (image fat : List Nat) (bps spc rde start : Nat) :
    ∀ (d k : Nat),
      (∀ j, j < d → (readSectors image bps
        (clusterToLBA rde spc (chainAt fat start (k + j))) spc).isSome) →
      (fullData image fat bps spc rde start k d).length = d * (spc * bps) := by
  intro d
  induction d with
  | zero =>
    intro k h
    simp [fullData]
  | succ n ih =>
    intro k h
    have h0 := h 0 (by omega)
    simp only [Nat.add_zero] at h0
    obtain ⟨data, hdata⟩ := Option.isSome_iff_exists.1 h0
    have hdl : data.length = spc * bps := readSectors_length image bps _ spc data hdata
    have hcd : clusterData image bps spc rde (chainAt fat start k) = data := by
      unfold clusterData
      rw [hdata]
      rfl
    have hshift : ∀ j, j < n → (readSectors image bps
        (clusterToLBA rde spc (chainAt fat start (k + 1 + j))) spc).isSome := by
      intro j hj
      have e : k + 1 + j = k + (j + 1) := by omega
      rw [e]
      exact h (j + 1) (by omega)
    simp only [fullData, List.length_append, hcd, hdl, ih (k + 1) hshift]
    have hx : (n + 1) * (spc * bps) = spc * bps + n * (spc * bps) := by ring
    omega

/-- Writing `data` at offset `off` and then taking `off + data.length`
bytes yields the untouched prefix followed by `data`. -/
theorem writeBytes_take (buffer data : List Nat) (off : Nat) (hoff : off ≤ buffer.length) :
    (writeBytes buffer off data).take (off + data.length) = buffer.take off ++ data := by
  unfold writeBytes
  rw [List.take_append_eq_append_take]
  have h1 : (buffer.take off ++ data).length = off + data.length := by
    rw [List.length_append, List.length_take, Nat.min_eq_left hoff]
  rw [h1, Nat.sub_self, List.take_zero, List.append_nil,
    List.take_of_length_le (le_of_eq h1)]

/-- Writing `data` at offset `off` does not change the buffer from
`m ≥ off + data.length` on. -/
theorem writeBytes_drop (buffer data : List Nat) (off m : Nat) (hoff : off ≤ buffer.length)
    (hm : off + data.length ≤ m) :
    (writeBytes buffer off data).drop m = buffer.drop m := by
  unfold writeBytes
  rw [List.drop_append_eq_append_drop]
  have h1 : (buffer.take off ++ data).length = off + data.length := by
    rw [List.length_append, List.length_take, Nat.min_eq_left hoff]
  rw [h1, List.drop_of_length_le (by rw [h1]; omega)]
  simp only [List.nil_append]
  rw [List.drop_drop]
  congr 1
  omega

/-- Main loop invariant: starting at chain step `k` with `d` steps left to
cover the declared size, a chain that stays below the end-of-chain marker,
avoids 0xFF7 and whose cluster reads succeed drives the loop to the
success value with exactly `S` bytes counted; the buffer holds the
unclamped cluster data over `[k·cs, N·cs)` and the write log records one
full-cluster write per step. -/
theorem readFileLoop_complete (image fat : List Nat) (bps spc rde S start : Nat)
    (hcs : 0 < spc * bps)
    (hchain : ∀ j, j < clusterCount (spc * bps) S → chainAt fat start j < 0xFF8)
    (hbad : ∀ j, 1 ≤ j → j ≤ clusterCount (spc * bps) S → chainAt fat start j ≠ 0xFF7)
    (hread : ∀ j, j < clusterCount (spc * bps) S →
      (readSectors image bps (clusterToLBA rde spc (chainAt fat start j)) spc).isSome) :
    ∀ (d k : Nat) (buffer : List Nat) (writes : List (Nat × Nat)),
      k + d = clusterCount (spc * bps) S → k * (spc * bps) ≤ buffer.length →
      readFileLoop image fat bps spc rde S (d + 1) (chainAt fat start k)
          (min (k * (spc * bps)) S) buffer writes
        = some (true, S,
            buffer.take (k * (spc * bps)) ++ fullData image fat bps spc rde start k d ++
              buffer.drop (clusterCount (spc * bps) S * (spc * bps)),
            writes ++ fullWrites (spc * bps) k d) := by
  intro d
  induction d with
  | zero =>
    intro k buffer writes hk hbuf
    have hkN : k = clusterCount (spc * bps) S := by omega
    subst hkN
    rw [Nat.min_eq_right (le_clusterCount_mul (spc * bps) S hcs)]
    rw [readFileLoop_succ_stop image fat bps spc rde S 0
      (chainAt fat start (clusterCount (spc * bps) S)) S buffer writes
      (by simp [lt_self_iff_false])]
    simp [fullData, fullWrites, List.take_append_drop]
  | succ n ih =>
    intro k buffer writes hk hbuf
    have hkN : k < clusterCount (spc * bps) S := by omega
    have hkcs : k * (spc * bps) < S := (lt_clusterCount_iff _ _ _ hcs).1 hkN
    rw [Nat.min_eq_left (Nat.le_of_lt hkcs)]
    obtain ⟨data, hdata⟩ := Option.isSome_iff_exists.1 (hread k hkN)
    have hdl : data.length = spc * bps := readSectors_length image bps _ spc data hdata
    have hcd : clusterData image bps spc rde (chainAt fat start k) = data := by
      unfold clusterData
      rw [hdata]
      rfl
    rw [readFileLoop_succ_some image fat bps spc rde S (n + 1) (chainAt fat start k)
      (k * (spc * bps)) buffer writes data ⟨hchain k hkN, hkcs⟩ hdata]
    rw [← chainAt_succ fat start k]
    rw [if_neg (hbad (k + 1) (by omega) (by omega))]
    have hbr : k * (spc * bps) +
        (if spc * bps < S - k * (spc * bps) then spc * bps else S - k * (spc * bps))
        = min ((k + 1) * (spc * bps)) S := by
      have hx : (k + 1) * (spc * bps) = k * (spc * bps) + spc * bps := by ring
      rw [hx]
      split
      · rename_i h
        rw [Nat.min_eq_left (by omega)]
      · rename_i h
        rw [Nat.min_eq_right (by omega)]
        omega
    rw [hbr]
    have hbuf2 : (k + 1) * (spc * bps) ≤ (writeBytes buffer (k * (spc * bps)) data).length := by
      simp only [writeBytes, List.length_append, List.length_take, List.length_drop, hdl]
      rw [Nat.min_eq_left hbuf]
      have hx : (k + 1) * (spc * bps) = k * (spc * bps) + spc * bps := by ring
      omega
    rw [ih (k + 1) (writeBytes buffer (k * (spc * bps)) data)
      (writes ++ [(k * (spc * bps), data.length)]) (by omega) hbuf2]
    have htk : (writeBytes buffer (k * (spc * bps)) data).take ((k + 1) * (spc * bps))
        = buffer.take (k * (spc * bps)) ++ data := by
      have hx : (k + 1) * (spc * bps) = k * (spc * bps) + data.length := by
        rw [hdl]
        ring
      rw [hx]
      exact writeBytes_take buffer data _ hbuf
    have hdk : (writeBytes buffer (k * (spc * bps)) data).drop
        (clusterCount (spc * bps) S * (spc * bps))
        = buffer.drop (clusterCount (spc * bps) S * (spc * bps)) := by
      apply writeBytes_drop buffer data _ _ hbuf
      rw [hdl]
      have h1 : (k + 1) * (spc * bps) ≤ clusterCount (spc * bps) S * (spc * bps) :=
        Nat.mul_le_mul_right _ (by omega)
      have hx : (k + 1) * (spc * bps) = k * (spc * bps) + spc * bps := by ring
      omega
    rw [htk, hdk]
    simp only [fullData, fullWrites, hcd, hdl, List.append_assoc, List.singleton_append,
      List.cons_append, List.nil_append]

/-- The unclamped concatenation of the chain's clusters, truncated to the
bytes still owed, is exactly the specification-level clamped chain
stream. -/
theorem fullData_take (image fat : List Nat) (bps spc rde start S : Nat) :
    ∀ (d k : Nat),
      (∀ j, j < d → (readSectors image bps
        (clusterToLBA rde spc (chainAt fat start (k + j))) spc).isSome) →
      (fullData image fat bps spc rde start k d).take (S - k * (spc * bps))
        = chainBytesAux image fat bps spc rde (chainAt fat start k)
            (S - k * (spc * bps)) d := by
  intro d
  induction d with
  | zero =>
    intro k h
    simp [fullData, chainBytesAux]
  | succ n ih =>
    intro k h
    have h0 := h 0 (by omega)
    simp only [Nat.add_zero] at h0
    obtain ⟨data, hdata⟩ := Option.isSome_iff_exists.1 h0
    have hdl : data.length = spc * bps := readSectors_length image bps _ spc data hdata
    have hcd : clusterData image bps spc rde (chainAt fat start k) = data := by
      unfold clusterData
      rw [hdata]
      rfl
    simp only [fullData, chainBytesAux, hcd]
    rw [List.take_append_eq_append_take, hdl, ← chainAt_succ]
    have e1 : S - k * (spc * bps) - spc * bps = S - (k + 1) * (spc * bps) := by
      have hx : (k + 1) * (spc * bps) = k * (spc * bps) + spc * bps := by ring
      omega
    have e2 : S - k * (spc * bps) - min (spc * bps) (S - k * (spc * bps))
        = S - (k + 1) * (spc * bps) := by
      have hx : (k + 1) * (spc * bps) = k * (spc * bps) + spc * bps := by ring
      rcases Nat.le_total (spc * bps) (S - k * (spc * bps)) with hle | hle
      · rw [Nat.min_eq_left hle]
        omega
      · rw [Nat.min_eq_right hle]
        omega
    have e3 : data.take (S - k * (spc * bps))
        = data.take (min (spc * bps) (S - k * (spc * bps))) := by
      rcases Nat.le_total (spc * bps) (S - k * (spc * bps)) with hle | hle
      · rw [Nat.min_eq_left hle, List.take_of_length_le (by omega),
          List.take_of_length_le (by omega)]
      · rw [Nat.min_eq_right hle]
    rw [e1, e2, e3]
    congr 1
    have hshift : ∀ j, j < n → (readSectors image bps
        (clusterToLBA rde spc (chainAt fat start (k + 1 + j))) spc).isSome := by
      intro j hj
      have e : k + 1 + j = k + (j + 1) := by omega
      rw [e]
      exact h (j + 1) (by omega)
    exact ih (k + 1) hshift

/-- Claim C2: for every directory entry whose cluster chain reaches an
end-of-chain marker only at or after the declared size is accumulated
(formally: the first `⌈Size / clusterSize⌉` chain steps are data clusters
below 0xFF8, no step up to and including the one past the last needed
cluster is the bad-cluster value 0xFF7, and each needed cluster read
succeeds), the chain read succeeds with exactly `Size` bytes counted, and
the resulting byte sequence (the first `Size` bytes of the output buffer,
which is what `main` emits) is exactly the clamped chain stream: each
cluster contributes `min(clusterSizeInBytes, Size - bytesProduced)` bytes,
so no byte of the last cluster beyond end-of-file appears in the result,
whose length is exactly `Size`. -/
theorem claim_C2_chain_read_exact (image fat : List Nat) (bps spc rde : Nat)
    (entry : DirectoryEntry) (buffer : List Nat)
    (hcs : 1 ≤ spc * bps)
    (hchain : ∀ j, j < clusterCount (spc * bps) entry.Size →
      chainAt fat entry.FirstClusterLow j < 0xFF8)
    (hbad : ∀ j, 1 ≤ j → j ≤ clusterCount (spc * bps) entry.Size →
      chainAt fat entry.FirstClusterLow j ≠ 0xFF7)
    (hread : ∀ j, j < clusterCount (spc * bps) entry.Size →
      (readSectors image bps
        (clusterToLBA rde spc (chainAt fat entry.FirstClusterLow j)) spc).isSome) :
    ∃ buf w,
      readFile image fat bps spc rde entry buffer
          (clusterCount (spc * bps) entry.Size + 1)
        = some (true, entry.Size, buf, w) ∧
      buf.take entry.Size
        = chainBytes image fat bps spc rde entry.FirstClusterLow entry.Size ∧
      (chainBytes image fat bps spc rde entry.FirstClusterLow entry.Size).length
        = entry.Size := by
  by_cases hS : entry.Size = 0
  · have hcb : chainBytes image fat bps spc rde entry.FirstClusterLow entry.Size = [] := by
      unfold chainBytes
      rw [hS, show clusterCount (spc * bps) 0 = 0 from by
        unfold clusterCount
        exact Nat.div_eq_of_lt (by omega)]
      rfl
    refine ⟨buffer, [], ?_, ?_, ?_⟩
    · unfold readFile
      rw [if_pos hS, hS]
    · rw [hcb, hS, List.take_zero]
    · rw [hcb, hS]
      rfl
  · have hread0 : ∀ j, j < clusterCount (spc * bps) entry.Size →
        (readSectors image bps
          (clusterToLBA rde spc (chainAt fat entry.FirstClusterLow (0 + j))) spc).isSome := by
      intro j hj
      simpa using hread j hj
    have hlen : (fullData image fat bps spc rde entry.FirstClusterLow 0
        (clusterCount (spc * bps) entry.Size)).length
        = clusterCount (spc * bps) entry.Size * (spc * bps) :=
      fullData_length image fat bps spc rde entry.FirstClusterLow
        (clusterCount (spc * bps) entry.Size) 0 hread0
    have htake := fullData_take image fat bps spc rde entry.FirstClusterLow entry.Size
      (clusterCount (spc * bps) entry.Size) 0 hread0
    simp only [Nat.zero_mul, Nat.sub_zero, chainAt_zero] at htake
    have hScov := le_clusterCount_mul (spc * bps) entry.Size hcs
    have hrun := readFileLoop_complete image fat bps spc rde entry.Size
      entry.FirstClusterLow hcs hchain hbad hread
      (clusterCount (spc * bps) entry.Size) 0 buffer [] (by omega) (by omega)
    simp only [Nat.zero_mul, Nat.zero_min, List.take_zero, List.nil_append,
      chainAt_zero] at hrun
    refine ⟨fullData image fat bps spc rde entry.FirstClusterLow 0
        (clusterCount (spc * bps) entry.Size) ++
        buffer.drop (clusterCount (spc * bps) entry.Size * (spc * bps)),
      fullWrites (spc * bps) 0 (clusterCount (spc * bps) entry.Size), ?_, ?_, ?_⟩
    · unfold readFile
      rw [if_neg hS]
      exact hrun
    · rw [List.take_append_eq_append_take, hlen,
        Nat.sub_eq_zero_of_le hScov, List.take_zero, List.append_nil, htake]
      rfl
    · unfold chainBytes
      rw [← htake, List.length_take, hlen]
      exact Nat.min_eq_left hScov

/-- Witness for C2: a 2-byte file over the chain 2 → 3 → end-of-chain with
1-byte clusters reconstructs exactly the two data bytes. -/
theorem claim_C2_witness :
    ∃ buf w,
      readFile [72, 105] [0, 0, 0, 3, 0x80, 0xFF] 1 1 0 ⟨[65], 0, 2, 2⟩ [9, 9, 9]
          (clusterCount (1 * 1) 2 + 1)
        = some (true, 2, buf, w) ∧
      buf.take 2 = chainBytes [72, 105] [0, 0, 0, 3, 0x80, 0xFF] 1 1 0 2 2 ∧
      (chainBytes [72, 105] [0, 0, 0, 3, 0x80, 0xFF] 1 1 0 2 2).length = 2 :=
  claim_C2_chain_read_exact [72, 105] [0, 0, 0, 3, 0x80, 0xFF] 1 1 0 ⟨[65], 0, 2, 2⟩
    [9, 9, 9] (by decide) (by decide)
    (by
      intro j h1 h2
      have h3 : j ≤ 2 := le_trans h2 (by decide)
      interval_cases j <;> decide) (by decide)

/-- Witness for C10 (part 1) at a concrete truncated run: the single
logged write is at offset 0 < 2 of 1 cluster byte, within the bound. -/
theorem claim_C10_witness :
    ((0 : Nat), (1 : Nat)).1 < 2 ∧ ((0 : Nat), (1 : Nat)).2 = 1 * 1 ∧
      ((0 : Nat), (1 : Nat)).1 + ((0 : Nat), (1 : Nat)).2 < 2 + 1 * 1 :=
  claim_C10_buffer_bounds.1 [72] [0, 0, 0, 0xF8, 0x0F] 1 1 0 ⟨[65], 0, 2, 2⟩ [7, 7, 7] 2
    (true, 1, [72, 7, 7], [(0, 1)]) (by decide) (0, 1) (by decide)

end Fat12
